import Mathlib

/-!
# GoGoGadgetoSnake: the movement-and-rules engine of `main.go`

A shallow embedding of the game logic of `src/main.go` and theorems about it.

Modelling choices.

* Go `int` coordinates and the score are `Int`. They are terminal cell coordinates and a
  counter of eaten apples, far away from the 64-bit wrap-around, which is not modelled.
* `Block` is a singly linked chain `{position, next *Block}`. The chains the program builds
  (`initGame`, `addOneBlock`) are finite and acyclic, so the head block is modelled as its
  own `position` together with `next`, the list of the positions of the blocks reached by
  following `next` pointers (`[]` stands for `next == nil`).
* `map[Point]bool` with only `true` values stored is the list of its keys; a lookup is a
  membership test.
* `rand.Intn(n)` is `rnd % n` for an arbitrary natural number `rnd` supplied by the caller,
  and panics (`none`) when `n = 0`, as does indexing an empty slice.
* A run-time panic (nil dereference, `rand.Intn(0)`) is `none`.
* The keyboard channel read of one tick is a parameter `command : Option Move`
  (`none` is the `default:` branch of the `select`).
-/

namespace GoGoGadgetoSnake

/-- The `Move` constants of `main.go`. -/
inductive Move where
  | Up
  | Right
  | Down
  | Left
  | Escape
  | NoDirection
  deriving DecidableEq, Repr

/-- The `GameState` constants of `main.go`. -/
inductive GameState where
  | Pending
  | BorderFinish
  | SnakeFinish
  | QuitByUser
  deriving DecidableEq, Repr

/-- The struct `Point`. -/
structure Point where
  x : Int
  y : Int
  deriving DecidableEq, Repr

/-- The struct `Board`. -/
structure Board where
  width : Int
  height : Int
  middle : Point
  yStart : Int
  xStart : Int
  yEnd : Int
  xEnd : Int
  deriving DecidableEq, Repr

/-- The struct `Block`, the head of a chain: `next` lists the positions of the following
blocks in chain order, `[]` when the `next` pointer is nil. -/
structure Block where
  position : Point
  next : List Point
  deriving DecidableEq, Repr

/-- The struct `Game`. -/
structure Game where
  Snake : Block
  Board : Board
  Apple : Point
  isOver : Bool
  state : GameState
  score : Int
  deriving DecidableEq, Repr

/-- The constant `BOARD_WIDTH`. -/
def BOARD_WIDTH : Int := 40

/-- The constant `BOARD_HEIGHT`. -/
def BOARD_HEIGHT : Int := 20

/-- All segment positions of a chain, head first. -/
def Block.positions (snake : Block) : List Point :=
  snake.position :: snake.next

/-- Whether a move is one of the four directions. -/
def Move.isDirection : Move → Bool
  | .Up => true
  | .Right => true
  | .Down => true
  | .Left => true
  | .Escape => false
  | .NoDirection => false

/-- The function `initGame`, with the result of `termbox.Size()` as parameters. Go integer
division truncates toward zero. The fields `isOver` and `state` are left at their zero
values `false` and `Pending`. -/
def initGame (width height : Int) : Game :=
  let middleX := Int.tdiv width 2
  let middleY := Int.tdiv height 2
  let xStart := middleX - Int.tdiv BOARD_WIDTH 2
  let xEnd := middleX + Int.tdiv BOARD_WIDTH 2
  let yStart := middleY - Int.tdiv BOARD_HEIGHT 2
  let yEnd := middleY + Int.tdiv BOARD_HEIGHT 2
  { Snake :=
      { position := ⟨middleX, middleY⟩
        next := [⟨middleX + 1, middleY⟩, ⟨middleX + 2, middleY⟩] }
    Board :=
      { width := width
        height := height
        middle := ⟨middleX, middleY⟩
        xStart := xStart
        yStart := yStart
        yEnd := yEnd
        xEnd := xEnd }
    Apple := ⟨-1, -1⟩
    isOver := false
    state := GameState.Pending
    score := 0 }

/-- The walk of `addOneBlock` along the chain after the block `tmp`: while `tmp.next` is
not nil step to it; at the block whose `next` is nil hang a new block at `(-1, -1)`. -/
def addOneBlockLoop : List Point → List Point
  | [] => [⟨-1, -1⟩]
  | p :: rest => p :: addOneBlockLoop rest

/-- The method `addOneBlock`, called on the head block. -/
def addOneBlock (snake : Block) : Block :=
  { snake with next := addOneBlockLoop snake.next }

/-- The method `isWall`. -/
def isWall (game : Game) (x y : Int) : Bool :=
  y == game.Board.yStart || x == game.Board.xStart ||
    y == game.Board.yEnd - 1 || x == game.Board.xEnd - 1

/-- The loop of `getSnakePositions`: `tmp` is at a block with position `p` whose remaining
chain is the second argument; the loop body runs only while `tmp.next != nil`. -/
def getSnakePositionsLoop : Point → List Point → List Point
  | _, [] => []
  | p, q :: rest => p :: getSnakePositionsLoop q rest

/-- The method `getSnakePositions`: the keys of the returned map. -/
def getSnakePositions (game : Game) : List Point :=
  getSnakePositionsLoop game.Snake.position game.Snake.next

/-- The values taken by `for i := lo; i < hi; i++`. -/
def loopRange (lo hi : Int) : List Int :=
  (List.range (hi - lo).toNat).map fun (k : Nat) => lo + (k : Int)

/-- The slice `availablePositions` built by the two nested loops of `createApple`. -/
def availablePositions (game : Game) : List Point :=
  let snakePositions := getSnakePositions game
  (loopRange game.Board.yStart game.Board.yEnd).flatMap fun i =>
    ((loopRange game.Board.xStart game.Board.xEnd).filter fun h =>
      !isWall game h i && !decide ((⟨h, i⟩ : Point) ∈ snakePositions)).map fun h => ⟨h, i⟩

/-- The method `createApple`; `rnd` drives `rand.Intn`. With no available position
`rand.Intn(0)` panics. -/
def createApple (game : Game) (rnd : Nat) : Option Game :=
  let avail := availablePositions game
  if h : 0 < avail.length then
    some { game with Apple := avail.get ⟨rnd % avail.length, Nat.mod_lt rnd h⟩ }
  else
    none

/-- The head displacement at the top of `makeSnakeMove` (the `if`/`else if` chain on
`currentDirection`). -/
def moveHead (p : Point) : Move → Point
  | .Left => ⟨p.x - 1, p.y⟩
  | .Up => ⟨p.x, p.y - 1⟩
  | .Right => ⟨p.x + 1, p.y⟩
  | .Down => ⟨p.x, p.y + 1⟩
  | .Escape => p
  | .NoDirection => p

/-- The propagation loop of `makeSnakeMove`, run over the blocks after the head.
`headPos` is `game.Snake.position` (already displaced), the third argument is
`previousPosition`, the fourth is the pair `(game.state, game.isOver)`. -/
def propagate (headPos : Point) :
    List Point → Point → GameState × Bool → List Point × (GameState × Bool)
  | [], _, flags => ([], flags)
  | p :: rest, previousPosition, flags =>
    let flags1 := if p = headPos then (GameState.SnakeFinish, true) else flags
    let r := propagate headPos rest p flags1
    (previousPosition :: r.1, r.2)

/-- The method `makeSnakeMove`. -/
def makeSnakeMove (game : Game) (currentDirection : Move) (rnd : Nat) : Option Game :=
  let previousPosition := game.Snake.position
  let headPos := moveHead previousPosition currentDirection
  let r := propagate headPos game.Snake.next previousPosition (game.state, game.isOver)
  let game1 : Game :=
    { game with Snake := { position := headPos, next := r.1 }, state := r.2.1, isOver := r.2.2 }
  let afterApple : Option Game :=
    if headPos = game1.Apple then
      createApple { game1 with Snake := addOneBlock game1.Snake, score := game1.score + 1 } rnd
    else
      some game1
  afterApple.map fun game2 =>
    if isWall game2 game2.Snake.position.x game2.Snake.position.y then
      { game2 with state := GameState.BorderFinish, isOver := true }
    else
      game2

/-- The method `commandIsValid`. Reading `game.Snake.next.position` panics when the head
block has no successor; by short-circuit evaluation that read happens only for a move that
is one of the four directions. -/
def commandIsValid (game : Game) (move : Move) : Option Bool :=
  match move with
  | .Left => game.Snake.next.head?.map fun n => !(n.x == game.Snake.position.x - 1)
  | .Right => game.Snake.next.head?.map fun n => !(n.x == game.Snake.position.x + 1)
  | .Down => game.Snake.next.head?.map fun n => !(n.y == game.Snake.position.y + 1)
  | .Up => game.Snake.next.head?.map fun n => !(n.y == game.Snake.position.y - 1)
  | .Escape => some true
  | .NoDirection => some true

/-- One iteration of the `for` loop of `main`, up to the `isOver` test: the `select` on the
command channel, then `makeSnakeMove`. The state is the game and `currentDirection`. -/
def tick (s : Game × Move) (command : Option Move) (rnd : Nat) : Option (Game × Move) :=
  let afterSelect : Option (Game × Move) :=
    match command with
    | none => some s
    | some cmd =>
      if cmd = Move.Escape then
        some ({ s.1 with isOver := true, state := GameState.QuitByUser }, s.2)
      else if cmd ≠ Move.NoDirection then
        (commandIsValid s.1 cmd).map fun ok => if ok then (s.1, cmd) else s
      else
        some s
  afterSelect.bind fun s1 => (makeSnakeMove s1.1 s1.2 rnd).map fun game2 => (game2, s1.2)

/-- The start of `main`: `initGame`, `currentDirection := Left`, the first `createApple`. -/
def start (width height : Int) (rnd : Nat) : Option (Game × Move) :=
  (createApple (initGame width height) rnd).map fun game => (game, Move.Left)

/-- The states the loop of `main` reaches: the start state, and the result of a tick taken
from a reached state in which the loop has not stopped (`isOver` still false). -/
inductive Reachable : Game × Move → Prop where
  | init (width height : Int) (rnd : Nat) (s : Game × Move)
      (h : start width height rnd = some s) : Reachable s
  | step (s : Game × Move) (command : Option Move) (rnd : Nat) (s1 : Game × Move)
      (hs : Reachable s) (hrun : s.1.isOver = false)
      (h : tick s command rnd = some s1) : Reachable s1

/-- The loop of `main` run on a finite script of channel reads and random draws: before
each further tick the loop has checked `isOver` and stopped when it was set. -/
def runTicks : Game × Move → List (Option Move × Nat) → Option (Game × Move)
  | s, [] => some s
  | s, (command, rnd) :: rest =>
    if s.1.isOver then some s else (tick s command rnd).bind fun s1 => runTicks s1 rest

/-- The direction opposite to a direction. -/
def Move.opposite : Move → Move
  | .Up => .Down
  | .Right => .Left
  | .Down => .Up
  | .Left => .Right
  | .Escape => .Escape
  | .NoDirection => .NoDirection

/-- A board whose non-wall interior is 10 x 6 cells. -/
def exBoard : Board :=
  { width := 12, height := 8, middle := ⟨6, 4⟩, yStart := 0, xStart := 0, yEnd := 8, xEnd := 12 }

/-- A Pending game: 3-segment snake with head `(5,3)`, apple away at `(9,5)`. -/
def exGame : Game :=
  { Snake := { position := ⟨5, 3⟩, next := [⟨4, 3⟩, ⟨3, 3⟩] }
    Board := exBoard
    Apple := ⟨9, 5⟩
    isOver := false
    state := GameState.Pending
    score := 0 }

/-- The game `exGame` after one move Right. -/
def exGameMoved : Game :=
  { exGame with Snake := { position := ⟨6, 3⟩, next := [⟨5, 3⟩, ⟨4, 3⟩] } }

/-- The game `exGame` with the apple right of the head. -/
def exAppleGame : Game :=
  { exGame with Apple := ⟨6, 3⟩ }

/-- A 4-segment snake curled in a 2 x 2 square, the last segment left of the head. -/
def exCurledGame : Game :=
  { exGame with Snake := { position := ⟨5, 3⟩, next := [⟨5, 4⟩, ⟨4, 4⟩, ⟨4, 3⟩] } }

/-- The game `exCurledGame` after one move Left. -/
def exCurledMoved : Game :=
  { exGame with
    Snake := { position := ⟨4, 3⟩, next := [⟨5, 3⟩, ⟨5, 4⟩, ⟨4, 4⟩] }
    state := GameState.SnakeFinish
    isOver := true }

/-- The 80x24 game after 19 ticks Left: the head is next to the left wall. -/
def exNearWall : Game × Move :=
  ({ initGame 80 24 with
      Snake := { position := ⟨21, 12⟩, next := [⟨22, 12⟩, ⟨23, 12⟩] }
      Apple := ⟨21, 3⟩ },
    Move.Left)

/-- A game whose head is next to a wall cell that holds both the apple and the tail. -/
def exWallGame : Game :=
  { exGame with
    Snake := { position := ⟨1, 3⟩, next := [⟨2, 3⟩, ⟨0, 3⟩] }
    Apple := ⟨0, 3⟩ }

/-- The game `exWallGame` after one move Left with random draw 0. -/
def exWallMoved : Game :=
  { exGame with
    Snake := { position := ⟨0, 3⟩, next := [⟨1, 3⟩, ⟨2, 3⟩, ⟨-1, -1⟩] }
    Apple := ⟨1, 1⟩
    score := 1
    state := GameState.BorderFinish
    isOver := true }

/-- The 80x24 game after the commands Up and Right. -/
def exHeadingRight : Game × Move :=
  ({ initGame 80 24 with
      Snake := { position := ⟨41, 11⟩, next := [⟨40, 11⟩, ⟨40, 12⟩] }
      Apple := ⟨21, 3⟩ },
    Move.Right)

/-- A board with the single non-wall cell `(1,1)`, under the head of a 2-segment snake. -/
def exFullGame : Game :=
  { Snake := { position := ⟨1, 1⟩, next := [⟨1, 2⟩] }
    Board :=
      { width := 3, height := 3, middle := ⟨1, 1⟩, yStart := 0, xStart := 0, yEnd := 3,
        xEnd := 3 }
    Apple := ⟨1, 1⟩
    isOver := false
    state := GameState.Pending
    score := 0 }

/-- The state `exNearWall` after one more tick Left: the head is on the left wall. -/
def exAtWall : Game × Move :=
  ({ initGame 80 24 with
      Snake := { position := ⟨20, 12⟩, next := [⟨21, 12⟩, ⟨22, 12⟩] }
      Apple := ⟨21, 3⟩
      state := GameState.BorderFinish
      isOver := true },
    Move.Left)

/-- A point of the playable rectangle `[xStart,xEnd) x [yStart,yEnd)` of a board. -/
def inBoard (b : Board) (p : Point) : Prop :=
  (b.xStart ≤ p.x ∧ p.x < b.xEnd) ∧ (b.yStart ≤ p.y ∧ p.y < b.yEnd)

/-- A point of the playable rectangle that is not on its outer ring. -/
def strictlyInside (b : Board) (p : Point) : Prop :=
  (b.xStart < p.x ∧ p.x < b.xEnd - 1) ∧ (b.yStart < p.y ∧ p.y < b.yEnd - 1)

/-- The invariant of the main loop about the body: the board is the one `initGame` builds
for the recorded terminal size; every segment but the last lies in the playable rectangle;
while the loop runs the head is off the wall ring; and, on a board in non-negative x
coordinates, a Pending state has no two segments on one position. -/
def bodyInv (s : Game × Move) : Prop :=
  s.1.Board = (initGame s.1.Board.width s.1.Board.height).Board ∧
    (∀ p ∈ s.1.Snake.positions.dropLast, inBoard s.1.Board p) ∧
    (s.1.isOver = false → strictlyInside s.1.Board s.1.Snake.position) ∧
    (0 ≤ s.1.Board.xStart → s.1.state = GameState.Pending → s.1.Snake.positions.Nodup)

/-- The state `exBeforeEating` after one tick without a command: the apple is eaten. -/
def exAfterEating : Game × Move :=
  ({ initGame 80 24 with
      Snake := { position := ⟨39, 12⟩, next := [⟨40, 12⟩, ⟨41, 12⟩, ⟨-1, -1⟩] }
      Apple := ⟨21, 3⟩
      score := 1 },
    Move.Left)

/-- A board with the four non-wall cells `(1,1)`, `(2,1)`, `(1,2)`, `(2,2)`. -/
def exSmallBoard : Board :=
  { width := 4, height := 4, middle := ⟨2, 2⟩, yStart := 0, xStart := 0, yEnd := 4, xEnd := 4 }

/-- A 3-segment snake on `exSmallBoard` heading Up towards the apple at `(1,1)`. -/
def exAlmostFullBefore : Game :=
  { Snake := { position := ⟨1, 2⟩, next := [⟨2, 2⟩, ⟨2, 1⟩] }
    Board := exSmallBoard
    Apple := ⟨1, 1⟩
    isOver := false
    state := GameState.Pending
    score := 0 }

/-- The game `exAlmostFullBefore` after the move Up: the apple was eaten and the new one
is on `(2,1)`, the only free cell. -/
def exAlmostFull : Game :=
  { Snake := { position := ⟨1, 1⟩, next := [⟨1, 2⟩, ⟨2, 2⟩, ⟨-1, -1⟩] }
    Board := exSmallBoard
    Apple := ⟨2, 1⟩
    isOver := false
    state := GameState.Pending
    score := 1 }

/-- The invariant of the main loop behind the rejection of reversals: the current
direction is one of the four directions and the head is the second segment displaced by
one step in that direction. -/
def neckBehind (s : Game × Move) : Prop :=
  s.2.isDirection = true ∧
    ∃ n rest, s.1.Snake.next = n :: rest ∧ s.1.Snake.position = moveHead n s.2

/-- The game as the propagation loop of `makeSnakeMove` leaves it, in closed form. -/
def afterLoop (game : Game) (d : Move) : Game :=
  { game with
    Snake :=
      { position := moveHead game.Snake.position d
        next := game.Snake.positions.dropLast }
    state :=
      if moveHead game.Snake.position d ∈ game.Snake.next then GameState.SnakeFinish
      else game.state
    isOver := if moveHead game.Snake.position d ∈ game.Snake.next then true else game.isOver }

/-- The game handed to `createApple` when the apple is eaten. -/
def grown (game : Game) (d : Move) : Game :=
  { afterLoop game d with
    Snake := addOneBlock (afterLoop game d).Snake
    score := (afterLoop game d).score + 1 }

/-- The wall test that ends `makeSnakeMove`. -/
def wallCheck (game : Game) : Game :=
  if isWall game game.Snake.position.x game.Snake.position.y then
    { game with state := GameState.BorderFinish, isOver := true }
  else
    game

/-! ## Facts about the loops -/

theorem addOneBlockLoop_eq (l : List Point) : addOneBlockLoop l = l ++ [⟨-1, -1⟩] := by
  induction l with
  | nil => rfl
  | cons p rest ih => simp [addOneBlockLoop, ih]

theorem addOneBlock_eq (snake : Block) :
    addOneBlock snake = { snake with next := snake.next ++ [⟨-1, -1⟩] } := by
  simp [addOneBlock, addOneBlockLoop_eq]

theorem getSnakePositionsLoop_eq (p : Point) (l : List Point) :
    getSnakePositionsLoop p l = (p :: l).dropLast := by
  induction l generalizing p with
  | nil => rfl
  | cons q rest ih => simp [getSnakePositionsLoop, ih]

theorem propagate_fst (headPos : Point) (l : List Point) (prev : Point)
    (flags : GameState × Bool) :
    (propagate headPos l prev flags).1 = (prev :: l).dropLast := by
  induction l generalizing prev flags with
  | nil => rfl
  | cons q rest ih => simp [propagate, ih]

theorem propagate_snd (headPos : Point) (l : List Point) (prev : Point)
    (flags : GameState × Bool) :
    (propagate headPos l prev flags).2 =
      if headPos ∈ l then (GameState.SnakeFinish, true) else flags := by
  induction l generalizing prev flags with
  | nil => simp [propagate]
  | cons q rest ih =>
    simp only [propagate, ih, List.mem_cons]
    by_cases h1 : headPos ∈ rest
    · simp [h1]
    · by_cases h2 : q = headPos
      · simp [h2]
      · have h3 : ¬ headPos = q := fun h => h2 h.symm
        simp [h1, h2, h3]

theorem makeSnakeMove_eq (game : Game) (d : Move) (rnd : Nat) :
    makeSnakeMove game d rnd =
      (if moveHead game.Snake.position d = game.Apple then createApple (grown game d) rnd
        else some (afterLoop game d)).map wallCheck := by
  unfold makeSnakeMove
  simp only [propagate_fst, propagate_snd]
  by_cases h : moveHead game.Snake.position d ∈ game.Snake.next <;>
    simp [h, afterLoop, grown, wallCheck, Block.positions] <;> rfl

theorem mem_loopRange (lo hi v : Int) : v ∈ loopRange lo hi ↔ lo ≤ v ∧ v < hi := by
  unfold loopRange
  simp only [List.mem_map, List.mem_range]
  constructor
  · rintro ⟨k, hk, rfl⟩
    omega
  · rintro ⟨h1, h2⟩
    refine ⟨(v - lo).toNat, ?_, ?_⟩
    · omega
    · omega

theorem mem_availablePositions (game : Game) (p : Point) :
    p ∈ availablePositions game ↔
      (game.Board.xStart ≤ p.x ∧ p.x < game.Board.xEnd) ∧
      (game.Board.yStart ≤ p.y ∧ p.y < game.Board.yEnd) ∧
      isWall game p.x p.y = false ∧ p ∉ getSnakePositions game := by
  obtain ⟨px, py⟩ := p
  unfold availablePositions
  simp only [List.mem_flatMap, List.mem_map, List.mem_filter, mem_loopRange, Bool.and_eq_true,
    Bool.not_eq_true', decide_eq_false_iff_not, Point.mk.injEq]
  constructor
  · rintro ⟨i, hi, h, ⟨hh, hw, hs⟩, rfl, rfl⟩
    exact ⟨hh, hi, hw, hs⟩
  · rintro ⟨hx, hy, hw, hs⟩
    exact ⟨py, hy, px, ⟨hx, hw, hs⟩, rfl, rfl⟩

theorem createApple_eq_some (game game1 : Game) (rnd : Nat)
    (h : createApple game rnd = some game1) :
    game1.Apple ∈ availablePositions game ∧ game1 = { game with Apple := game1.Apple } := by
  unfold createApple at h
  simp only at h
  split at h
  · simp only [Option.some.injEq] at h
    subst h
    exact ⟨List.get_mem _ _ _, rfl⟩
  · exact absurd h (by simp)

theorem createApple_isSome (game : Game) (rnd : Nat) (p : Point)
    (h : p ∈ availablePositions game) : (createApple game rnd).isSome = true := by
  unfold createApple
  have hpos : 0 < (availablePositions game).length := List.length_pos_of_mem h
  simp [hpos]

theorem getSnakePositions_grown (game : Game) (d : Move) :
    getSnakePositions (grown game d) = (afterLoop game d).Snake.positions := by
  simp only [getSnakePositions, getSnakePositionsLoop_eq, grown, addOneBlock_eq, Block.positions]
  rw [← List.cons_append, List.dropLast_concat]

theorem wallCheck_frame (game : Game) :
    (wallCheck game).Snake = game.Snake ∧ (wallCheck game).Board = game.Board ∧
      (wallCheck game).Apple = game.Apple ∧ (wallCheck game).score = game.score := by
  unfold wallCheck
  split <;> simp

theorem wallCheck_flags (game : Game) :
    ((wallCheck game).state, (wallCheck game).isOver) =
      if isWall game game.Snake.position.x game.Snake.position.y then
        (GameState.BorderFinish, true)
      else (game.state, game.isOver) := by
  unfold wallCheck
  split <;> simp

/-- The two ways `makeSnakeMove` returns: without eating, or eating and spawning an apple
on one of the available positions. -/
theorem makeSnakeMove_cases (game game1 : Game) (d : Move) (rnd : Nat)
    (h : makeSnakeMove game d rnd = some game1) :
    (moveHead game.Snake.position d ≠ game.Apple ∧ game1 = wallCheck (afterLoop game d)) ∨
    (moveHead game.Snake.position d = game.Apple ∧
      ∃ a ∈ availablePositions (grown game d),
        game1 = wallCheck { grown game d with Apple := a }) := by
  rw [makeSnakeMove_eq] at h
  by_cases ha : moveHead game.Snake.position d = game.Apple
  · right
    simp only [ha, if_true, Option.map_eq_some'] at h
    obtain ⟨g2, hg2, rfl⟩ := h
    have hc := createApple_eq_some _ _ _ hg2
    refine ⟨ha, g2.Apple, hc.1, ?_⟩
    rw [← hc.2]
  · left
    simp only [ha, if_false, Option.map_some', Option.some.injEq] at h
    exact ⟨ha, h.symm⟩

theorem makeSnakeMove_noApple (game : Game) (d : Move) (rnd : Nat)
    (h : moveHead game.Snake.position d ≠ game.Apple) :
    makeSnakeMove game d rnd = some (wallCheck (afterLoop game d)) := by
  rw [makeSnakeMove_eq]
  simp [h]

theorem makeSnakeMove_snake (game game1 : Game) (d : Move) (rnd : Nat)
    (h : makeSnakeMove game d rnd = some game1) :
    game1.Snake.position = moveHead game.Snake.position d ∧
      (game1.Snake.next = game.Snake.positions.dropLast ∨
        game1.Snake.next = game.Snake.positions.dropLast ++ [⟨-1, -1⟩]) := by
  rcases makeSnakeMove_cases game game1 d rnd h with ⟨_, rfl⟩ | ⟨_, a, _, rfl⟩
  · rw [(wallCheck_frame _).1]
    exact ⟨rfl, Or.inl rfl⟩
  · rw [(wallCheck_frame _).1]
    exact ⟨rfl, Or.inr (by simp [grown, addOneBlock_eq, afterLoop])⟩

theorem getElem?_pred_of_dropLast (P : List Point) (X : List Point) (hd : Point) (i : Nat)
    (hX : X = P.dropLast ∨ X = P.dropLast ++ [⟨-1, -1⟩]) (h1 : 1 ≤ i) (h2 : i < P.length) :
    (hd :: X)[i]? = P[i - 1]? := by
  obtain ⟨k, rfl⟩ : ∃ k, i = k + 1 := ⟨i - 1, by omega⟩
  have hk : k < P.dropLast.length := by
    rw [List.length_dropLast]
    omega
  have hP : P.dropLast[k]? = P[k]? := by
    rw [List.dropLast_eq_take, List.getElem?_take_of_lt]
    omega
  simp only [List.getElem?_cons_succ, Nat.add_sub_cancel]
  rcases hX with rfl | rfl
  · exact hP
  · rw [List.getElem?_append_left hk, hP]

/-! ## The claims -/

/-- C1: after `makeSnakeMove` with a direction the head is the old head displaced by one
unit (Up: y-1, Down: y+1, Left: x-1, Right: x+1), and every segment `i >= 1` below the
pre-move body length is where segment `i-1` was before the move. The call returns whenever
no apple is eaten. -/
theorem makeSnakeMove_follow_the_leader (game : Game) (d : Move) (rnd : Nat) :
    (moveHead game.Snake.position d ≠ game.Apple → (makeSnakeMove game d rnd).isSome = true) ∧
    ∀ game1, makeSnakeMove game d rnd = some game1 →
      (d = Move.Up →
        game1.Snake.position = ⟨game.Snake.position.x, game.Snake.position.y - 1⟩) ∧
      (d = Move.Down →
        game1.Snake.position = ⟨game.Snake.position.x, game.Snake.position.y + 1⟩) ∧
      (d = Move.Left →
        game1.Snake.position = ⟨game.Snake.position.x - 1, game.Snake.position.y⟩) ∧
      (d = Move.Right →
        game1.Snake.position = ⟨game.Snake.position.x + 1, game.Snake.position.y⟩) ∧
      ∀ i, 1 ≤ i → i < game.Snake.positions.length →
        game1.Snake.positions[i]? = game.Snake.positions[i - 1]? := by
  constructor
  · intro h
    rw [makeSnakeMove_noApple game d rnd h]
    rfl
  · intro game1 h
    obtain ⟨hp, hn⟩ := makeSnakeMove_snake game game1 d rnd h
    refine ⟨?_, ?_, ?_, ?_, ?_⟩
    · rintro rfl
      exact hp
    · rintro rfl
      exact hp
    · rintro rfl
      exact hp
    · rintro rfl
      exact hp
    · intro i h1 h2
      exact getElem?_pred_of_dropLast game.Snake.positions game1.Snake.next _ i hn h1 h2

/-- C1, witness: the body `[(5,3),(4,3),(3,3)]` moved Right, no apple or wall involved,
becomes `[(6,3),(5,3),(4,3)]`. -/
theorem makeSnakeMove_follow_the_leader_witness :
    makeSnakeMove exGame Move.Right 0 = some exGameMoved ∧
      exGame.Snake.positions = [⟨5, 3⟩, ⟨4, 3⟩, ⟨3, 3⟩] ∧
      exGameMoved.Snake.positions = [⟨6, 3⟩, ⟨5, 3⟩, ⟨4, 3⟩] ∧
      exGameMoved.Snake.position = ⟨exGame.Snake.position.x + 1, exGame.Snake.position.y⟩ ∧
      ∀ i, 1 ≤ i → i < exGame.Snake.positions.length →
        exGameMoved.Snake.positions[i]? = exGame.Snake.positions[i - 1]? :=
  have h := (makeSnakeMove_follow_the_leader exGame Move.Right 0).2 exGameMoved (by decide)
  ⟨by decide, by decide, by decide, h.2.2.2.1 rfl, h.2.2.2.2⟩

set_option maxRecDepth 100000 in
/-- C3, the code at the failing input: on an 80x24 terminal the first `createApple` of
`main`, with the random index 361, puts the apple on `(42,12)`, the cell of the snake's
last segment. -/
theorem createApple_on_last_segment :
    (createApple (initGame 80 24) 361).map (fun g => (g.Apple, g.Snake.positions)) =
      some (⟨42, 12⟩, [⟨40, 12⟩, ⟨41, 12⟩, ⟨42, 12⟩]) := by
  decide

/-- C4, amended: when the head moves onto the apple, on a board in non-negative
coordinates with a cell of the playable rectangle that is neither wall nor covered by the
body as it stands after the move (the displaced head and the old body without its last
segment),
`makeSnakeMove` returns with the score one higher, the body one segment longer, and the
new apple on no segment of the resulting body. Neither `0 <= yStart` nor the Pending
state is needed. -/
theorem makeSnakeMove_eats_apple (game : Game) (d : Move) (rnd : Nat)
    (hx : 0 ≤ game.Board.xStart)
    (hfree : ∃ c : Point,
      (game.Board.xStart ≤ c.x ∧ c.x < game.Board.xEnd) ∧
      (game.Board.yStart ≤ c.y ∧ c.y < game.Board.yEnd) ∧
      isWall game c.x c.y = false ∧
      c ∉ moveHead game.Snake.position d :: game.Snake.positions.dropLast)
    (heat : moveHead game.Snake.position d = game.Apple) :
    ∃ game1, makeSnakeMove game d rnd = some game1 ∧
      game1.score = game.score + 1 ∧
      game1.Snake.positions.length = game.Snake.positions.length + 1 ∧
      ∀ p ∈ game1.Snake.positions, game1.Apple ≠ p := by
  obtain ⟨c, hcx, hcy, hcw, hcs⟩ := hfree
  have hc : c ∈ availablePositions (grown game d) := by
    rw [mem_availablePositions, getSnakePositions_grown]
    exact ⟨hcx, hcy, hcw, hcs⟩
  have hsome := createApple_isSome (grown game d) rnd c hc
  obtain ⟨g2, hg2⟩ := Option.isSome_iff_exists.mp hsome
  obtain ⟨hmem, heq⟩ := createApple_eq_some _ _ _ hg2
  rw [mem_availablePositions, getSnakePositions_grown] at hmem
  obtain ⟨hax, _, haw, has⟩ := hmem
  refine ⟨wallCheck g2, ?_, ?_, ?_, ?_⟩
  · rw [makeSnakeMove_eq, if_pos heat, hg2]
    rfl
  · rw [(wallCheck_frame g2).2.2.2, heq]
    rfl
  · rw [(wallCheck_frame g2).1, heq]
    simp [grown, afterLoop, addOneBlock_eq, Block.positions]
  · rw [(wallCheck_frame g2).1, (wallCheck_frame g2).2.2.1]
    intro p hp hap
    have hp2 : p ∈ (afterLoop game d).Snake.positions ∨ p = ⟨-1, -1⟩ := by
      rw [heq] at hp
      simpa [grown, afterLoop, addOneBlock_eq, Block.positions, or_assoc] using hp
    rcases hp2 with hp2 | hp2
    · exact has (hap ▸ hp2)
    · have h1 : g2.Apple.x = -1 := by rw [hap, hp2]
      have h2 : game.Board.xStart ≤ g2.Apple.x := hax.1
      omega

/-- C4, witness: the apple lies right of the head of a 3-segment snake moving Right; the
score goes from 0 to 1, the length from 3 to 4, and the new apple is on none of the 4
segments. -/
theorem makeSnakeMove_eats_apple_witness :
    exAppleGame.score = 0 ∧ exAppleGame.Snake.positions.length = 3 ∧
      ∃ game1, makeSnakeMove exAppleGame Move.Right 0 = some game1 ∧
        game1.score = exAppleGame.score + 1 ∧
        game1.Snake.positions.length = exAppleGame.Snake.positions.length + 1 ∧
        ∀ p ∈ game1.Snake.positions, game1.Apple ≠ p :=
  ⟨rfl, rfl,
    makeSnakeMove_eats_apple exAppleGame Move.Right 0 (by decide)
      ⟨⟨1, 1⟩, by decide⟩ (by decide)⟩

theorem isWall_afterLoop (game : Game) (d : Move) (x y : Int) :
    isWall (afterLoop game d) x y = isWall game x y := rfl

theorem isWall_grown (game : Game) (d : Move) (a : Point) (x y : Int) :
    isWall { grown game d with Apple := a } x y = isWall game x y := rfl

/-- The flags `makeSnakeMove` returns with, in terms of the game it was called on. -/
theorem makeSnakeMove_flags (game game1 : Game) (d : Move) (rnd : Nat)
    (h : makeSnakeMove game d rnd = some game1) :
    (game1.state, game1.isOver) =
      if isWall game (moveHead game.Snake.position d).x (moveHead game.Snake.position d).y then
        (GameState.BorderFinish, true)
      else if moveHead game.Snake.position d ∈ game.Snake.next then
        (GameState.SnakeFinish, true)
      else (game.state, game.isOver) := by
  rcases makeSnakeMove_cases game game1 d rnd h with ⟨_, rfl⟩ | ⟨_, a, _, rfl⟩
  · rw [wallCheck_flags, isWall_afterLoop]
    by_cases hw : isWall game (afterLoop game d).Snake.position.x
        (afterLoop game d).Snake.position.y = true
    · have hw2 : isWall game (moveHead game.Snake.position d).x
          (moveHead game.Snake.position d).y = true := hw
      rw [if_pos hw, if_pos hw2]
    · have hw2 : ¬ isWall game (moveHead game.Snake.position d).x
          (moveHead game.Snake.position d).y = true := hw
      rw [if_neg hw, if_neg hw2]
      by_cases hm : moveHead game.Snake.position d ∈ game.Snake.next <;> simp [afterLoop, hm]
  · rw [wallCheck_flags, isWall_grown]
    by_cases hw : isWall game ({ grown game d with Apple := a } : Game).Snake.position.x
        ({ grown game d with Apple := a } : Game).Snake.position.y = true
    · have hw2 : isWall game (moveHead game.Snake.position d).x
          (moveHead game.Snake.position d).y = true := hw
      rw [if_pos hw, if_pos hw2]
    · have hw2 : ¬ isWall game (moveHead game.Snake.position d).x
          (moveHead game.Snake.position d).y = true := hw
      rw [if_neg hw, if_neg hw2]
      by_cases hm : moveHead game.Snake.position d ∈ game.Snake.next <;>
        simp [grown, afterLoop, hm]

/-- C5, counterexample: a 4-segment snake curled in a 2x2 square steps Left onto the cell
its tail leaves in the same move. The move ends in `SnakeFinish` although, in the body as
it stands after the move, no non-head segment is on the head's cell. -/
theorem makeSnakeMove_snakeFinish_counterexample :
    exCurledGame.state = GameState.Pending ∧
      isWall exCurledGame (moveHead exCurledGame.Snake.position Move.Left).x
        (moveHead exCurledGame.Snake.position Move.Left).y = false ∧
      makeSnakeMove exCurledGame Move.Left 0 = some exCurledMoved ∧
      exCurledMoved.state = GameState.SnakeFinish ∧
      exCurledMoved.Snake.positions = [⟨4, 3⟩, ⟨5, 3⟩, ⟨5, 4⟩, ⟨4, 4⟩] ∧
      exCurledMoved.Snake.position ∉ exCurledMoved.Snake.next := by
  decide

/-- C5, amended: from a Pending state, when the head's new cell is not a wall cell, a
`makeSnakeMove` that returns ends with `state = SnakeFinish` iff the head's new position
is the position some non-head segment held before the move (the last one included). -/
theorem makeSnakeMove_snakeFinish_iff (game game1 : Game) (d : Move) (rnd : Nat)
    (hstate : game.state = GameState.Pending)
    (hwall : isWall game (moveHead game.Snake.position d).x
      (moveHead game.Snake.position d).y = false)
    (h : makeSnakeMove game d rnd = some game1) :
    game1.state = GameState.SnakeFinish ↔ moveHead game.Snake.position d ∈ game.Snake.next := by
  have hf := makeSnakeMove_flags game game1 d rnd h
  rw [hwall, hstate] at hf
  by_cases hm : moveHead game.Snake.position d ∈ game.Snake.next
  · simp only [hm, if_true, Bool.false_eq_true, if_false, Prod.mk.injEq] at hf
    simp [hf.1, hm]
  · simp only [hm, if_false, Bool.false_eq_true, Prod.mk.injEq] at hf
    simp [hf.1, hm]

/-- C5, witness: the curled snake stepping onto the cell of its last segment ends in
`SnakeFinish`; the head's new cell `(4,3)` is the pre-move position of the last segment. -/
theorem makeSnakeMove_snakeFinish_iff_witness :
    (exCurledMoved.state = GameState.SnakeFinish ↔
        moveHead exCurledGame.Snake.position Move.Left ∈ exCurledGame.Snake.next) ∧
      moveHead exCurledGame.Snake.position Move.Left ∈ exCurledGame.Snake.next :=
  ⟨makeSnakeMove_snakeFinish_iff exCurledGame exCurledMoved Move.Left 0 rfl (by decide)
    (by decide), by decide⟩

set_option maxRecDepth 100000 in
/-- C6, the code at the failing input: on an 80x24 terminal, 19 ticks without a command
bring the snake, still heading Left, next to the left wall in a Pending state; the tick
that then receives Escape ends with `state = BorderFinish`, not `QuitByUser`. -/
theorem tick_escape_next_to_wall :
    ((start 80 24 0).bind fun s => runTicks s (List.replicate 19 (none, 0))) =
        some exNearWall ∧
      exNearWall.1.state = GameState.Pending ∧ exNearWall.1.isOver = false ∧
      (tick exNearWall (some Move.Escape) 0).map (fun s => (s.1.state, s.1.isOver)) =
        some (GameState.BorderFinish, true) := by
  decide

theorem makeSnakeMove_board (game game1 : Game) (d : Move) (rnd : Nat)
    (h : makeSnakeMove game d rnd = some game1) : game1.Board = game.Board := by
  rcases makeSnakeMove_cases game game1 d rnd h with ⟨_, rfl⟩ | ⟨_, a, _, rfl⟩ <;>
    rw [(wallCheck_frame _).2.1] <;> rfl

/-- C7: whenever `makeSnakeMove` returns with the head on a wall cell, the state is
`BorderFinish` and `isOver` is true. -/
theorem makeSnakeMove_wall (game game1 : Game) (d : Move) (rnd : Nat)
    (h : makeSnakeMove game d rnd = some game1)
    (hwall : isWall game1 game1.Snake.position.x game1.Snake.position.y = true) :
    game1.state = GameState.BorderFinish ∧ game1.isOver = true := by
  have hf := makeSnakeMove_flags game game1 d rnd h
  have hb := makeSnakeMove_board game game1 d rnd h
  have hp := (makeSnakeMove_snake game game1 d rnd h).1
  have hw : isWall game (moveHead game.Snake.position d).x
      (moveHead game.Snake.position d).y = true := by
    rw [← hp, ← hwall]
    simp only [isWall, hb]
  rw [if_pos hw, Prod.mk.injEq] at hf
  exact hf

/-- C7, witness: the head at `(1,3)` steps Left onto the wall cell `(0,3)`, which also
holds the apple and is the cell of the tail: the apple is eaten, the self-collision is
flagged, and the move ends in `BorderFinish` with `isOver` set. -/
theorem makeSnakeMove_wall_witness :
    moveHead exWallGame.Snake.position Move.Left = exWallGame.Apple ∧
      moveHead exWallGame.Snake.position Move.Left ∈ exWallGame.Snake.next ∧
      exWallMoved.score = exWallGame.score + 1 ∧
      exWallMoved.state = GameState.BorderFinish ∧ exWallMoved.isOver = true :=
  ⟨by decide, by decide, by decide,
    makeSnakeMove_wall exWallGame exWallMoved Move.Left 0 (by decide) (by decide)⟩

/-- C8: `isWall(x, y)` is true iff `y == yStart` or `y == yEnd-1` or `x == xStart` or
`x == xEnd-1`. -/
theorem isWall_iff (game : Game) (x y : Int) :
    isWall game x y = true ↔
      y = game.Board.yStart ∨ y = game.Board.yEnd - 1 ∨
        x = game.Board.xStart ∨ x = game.Board.xEnd - 1 := by
  simp only [isWall, Bool.or_eq_true, beq_iff_eq]
  tauto

/-- C9: if the head's new position is not the apple's position, `makeSnakeMove` returns
and leaves the body length, the score and the apple position unchanged. -/
theorem makeSnakeMove_no_apple_frame (game : Game) (d : Move) (rnd : Nat)
    (h : moveHead game.Snake.position d ≠ game.Apple) :
    ∃ game1, makeSnakeMove game d rnd = some game1 ∧
      game1.Snake.positions.length = game.Snake.positions.length ∧
      game1.score = game.score ∧ game1.Apple = game.Apple := by
  refine ⟨wallCheck (afterLoop game d), makeSnakeMove_noApple game d rnd h, ?_, ?_, ?_⟩
  · rw [(wallCheck_frame _).1]
    simp [afterLoop, Block.positions]
  · rw [(wallCheck_frame _).2.2.2]
    rfl
  · rw [(wallCheck_frame _).2.2.1]
    rfl

/-- C9, witness: the 3-segment snake moving Right with the apple at `(9,5)` keeps its
length 3, its score 0 and the apple. -/
theorem makeSnakeMove_no_apple_frame_witness :
    exGame.Snake.positions.length = 3 ∧ exGame.score = 0 ∧ exGame.Apple = ⟨9, 5⟩ ∧
      ∃ game1, makeSnakeMove exGame Move.Right 0 = some game1 ∧
        game1.Snake.positions.length = exGame.Snake.positions.length ∧
        game1.score = exGame.score ∧ game1.Apple = exGame.Apple :=
  ⟨rfl, rfl, rfl, makeSnakeMove_no_apple_frame exGame Move.Right 0 (by decide)⟩

/-! ## The direction invariant of the main loop -/

theorem createApple_snake (game game1 : Game) (rnd : Nat)
    (h : createApple game rnd = some game1) : game1.Snake = game.Snake := by
  rw [(createApple_eq_some game game1 rnd h).2]

theorem neckBehind_start (width height : Int) (rnd : Nat) (s : Game × Move)
    (h : start width height rnd = some s) : neckBehind s := by
  unfold start at h
  simp only [Option.map_eq_some'] at h
  obtain ⟨g, hg, rfl⟩ := h
  refine ⟨rfl, ?_⟩
  rw [createApple_snake _ _ _ hg]
  refine ⟨_, _, rfl, ?_⟩
  simp [initGame, moveHead]

theorem neckBehind_makeSnakeMove (game game1 : Game) (d : Move) (rnd : Nat)
    (hd : d.isDirection = true) (hn : game.Snake.next ≠ [])
    (h : makeSnakeMove game d rnd = some game1) : neckBehind (game1, d) := by
  obtain ⟨hp, hnext⟩ := makeSnakeMove_snake game game1 d rnd h
  obtain ⟨n, rest, hnr⟩ := List.exists_cons_of_ne_nil hn
  refine ⟨hd, game.Snake.position, ?_⟩
  rcases hnext with h1 | h1
  · exact ⟨(n :: rest).dropLast, by rw [h1, Block.positions, hnr]; rfl, hp⟩
  · exact ⟨(n :: rest).dropLast ++ [⟨-1, -1⟩], by rw [h1, Block.positions, hnr]; rfl, hp⟩

theorem neckBehind_tick (s s1 : Game × Move) (command : Option Move) (rnd : Nat)
    (hs : neckBehind s) (h : tick s command rnd = some s1) : neckBehind s1 := by
  obtain ⟨hd, n, rest, hnr, _⟩ := hs
  have hn : s.1.Snake.next ≠ [] := by simp [hnr]
  unfold tick at h
  simp only [Option.bind_eq_some, Option.map_eq_some'] at h
  obtain ⟨⟨g1, d1⟩, hsel, g2, hmove, rfl⟩ := h
  have hsel2 : g1.Snake = s.1.Snake ∧ d1.isDirection = true := by
    cases command with
    | none =>
      simp only [Option.some.injEq] at hsel
      subst hsel
      exact ⟨rfl, hd⟩
    | some cmd =>
      simp only at hsel
      split at hsel
      · simp only [Option.some.injEq, Prod.mk.injEq] at hsel
        rw [← hsel.1, ← hsel.2]
        exact ⟨rfl, hd⟩
      · split at hsel
        · simp only [Option.map_eq_some'] at hsel
          obtain ⟨ok, _, hok⟩ := hsel
          cases ok
          · simp only [Bool.false_eq_true, if_false] at hok
            subst hok
            exact ⟨rfl, hd⟩
          · simp only [if_true, Prod.mk.injEq] at hok
            rw [← hok.1, ← hok.2]
            refine ⟨rfl, ?_⟩
            cases cmd <;> simp_all [Move.isDirection]
        · simp only [Option.some.injEq] at hsel
          subst hsel
          exact ⟨rfl, hd⟩
  exact neckBehind_makeSnakeMove g1 g2 d1 rnd hsel2.2 (by rw [hsel2.1]; exact hn) hmove

theorem neckBehind_of_reachable (s : Game × Move) (hs : Reachable s) : neckBehind s := by
  induction hs with
  | init width height rnd s h => exact neckBehind_start width height rnd s h
  | step s command rnd s1 _ _ h ih => exact neckBehind_tick s s1 command rnd ih h

theorem reachable_runTicks (script : List (Option Move × Nat)) (s s1 : Game × Move)
    (hs : Reachable s) (h : runTicks s script = some s1) : Reachable s1 := by
  induction script generalizing s with
  | nil =>
    simp only [runTicks, Option.some.injEq] at h
    exact h ▸ hs
  | cons c rest ih =>
    obtain ⟨command, rnd⟩ := c
    simp only [runTicks] at h
    split at h
    · simp only [Option.some.injEq] at h
      exact h ▸ hs
    · rename_i hover
      simp only [Option.bind_eq_some] at h
      obtain ⟨s2, hs2, hrest⟩ := h
      exact ih s2 (Reachable.step s command rnd s2 hs (by simpa using hover) hs2) hrest

theorem reachable_of_run (width height : Int) (rnd : Nat) (script : List (Option Move × Nat))
    (s1 : Game × Move)
    (h : ((start width height rnd).bind fun s => runTicks s script) = some s1) :
    Reachable s1 := by
  simp only [Option.bind_eq_some] at h
  obtain ⟨s, hs, hrun⟩ := h
  exact reachable_runTicks script s s1 (Reachable.init width height rnd s hs) hrun

/-- C10: in every state the main loop reaches, the current direction is one of the four
directions, `commandIsValid` rejects the opposite direction, and a tick that receives the
opposite direction leaves the current direction unchanged. -/
theorem tick_opposite_keeps_direction (s : Game × Move) (hs : Reachable s) :
    s.2.isDirection = true ∧
    commandIsValid s.1 s.2.opposite = some false ∧
    ∀ (rnd : Nat) (s1 : Game × Move),
      tick s (some s.2.opposite) rnd = some s1 → s1.2 = s.2 := by
  obtain ⟨hd, n, rest, hnr, hpos⟩ := neckBehind_of_reachable s hs
  obtain ⟨g, d⟩ := s
  simp only at hd hnr hpos ⊢
  have hrej : commandIsValid g d.opposite = some false := by
    cases d <;> simp [Move.isDirection] at hd <;>
      simp [commandIsValid, Move.opposite, hnr, hpos, moveHead]
  refine ⟨hd, hrej, ?_⟩
  intro rnd s1 h
  unfold tick at h
  have h1 : d.opposite ≠ Move.Escape := by
    cases d <;> simp [Move.isDirection] at hd <;> simp [Move.opposite]
  have h2 : d.opposite ≠ Move.NoDirection := by
    cases d <;> simp [Move.isDirection] at hd <;> simp [Move.opposite]
  simp only [h1, h2, hrej, if_false, ne_eq, not_false_eq_true, if_true, Option.map_some',
    Bool.false_eq_true, Option.some_bind, Option.map_eq_some'] at h
  obtain ⟨g2, _, rfl⟩ := h
  rfl

set_option maxRecDepth 100000 in
/-- C10, witness: on an 80x24 terminal the commands Up then Right bring the game to a
state with current direction Right and the second segment at `head.x - 1`; there Left is
rejected, and the tick that receives Left keeps the direction Right. -/
theorem tick_opposite_keeps_direction_witness :
    exHeadingRight.2 = Move.Right ∧
      exHeadingRight.1.Snake.next.head? =
        some ⟨exHeadingRight.1.Snake.position.x - 1, exHeadingRight.1.Snake.position.y⟩ ∧
      commandIsValid exHeadingRight.1 Move.Left = some false ∧
      (tick exHeadingRight (some Move.Left) 0).map (fun s => s.2) = some Move.Right ∧
      ∀ (rnd : Nat) (s1 : Game × Move),
        tick exHeadingRight (some Move.Left) rnd = some s1 → s1.2 = Move.Right :=
  have h := tick_opposite_keeps_direction exHeadingRight
    (reachable_of_run 80 24 0 [(some Move.Up, 0), (some Move.Right, 0)] exHeadingRight
      (by decide))
  ⟨rfl, by decide, h.2.1, by decide, h.2.2⟩

/-! ## The board built by `initGame` -/

theorem tdiv_two_bounds (w : Int) :
    (0 ≤ w → 2 * Int.tdiv w 2 ≤ w ∧ w < 2 * Int.tdiv w 2 + 2) ∧
      (w < 0 → Int.tdiv w 2 ≤ 0) := by
  constructor
  · intro h
    rw [Int.tdiv_eq_ediv h (by decide)]
    omega
  · intro h
    have h1 : Int.tdiv w 2 = -Int.tdiv (-w) 2 := by
      rw [Int.neg_tdiv, Int.neg_neg]
    rw [h1, Int.tdiv_eq_ediv (by omega) (by decide)]
    omega

theorem initGame_board (width height : Int) :
    (initGame width height).Board.xStart = Int.tdiv width 2 - 20 ∧
      (initGame width height).Board.xEnd = Int.tdiv width 2 + 20 ∧
      (initGame width height).Board.yStart = Int.tdiv height 2 - 10 ∧
      (initGame width height).Board.yEnd = Int.tdiv height 2 + 10 := by
  refine ⟨?_, ?_, ?_, ?_⟩ <;> simp only [initGame, BOARD_WIDTH, BOARD_HEIGHT] <;> rfl

/-- C11, counterexample: on a 30x10 terminal the board starts at `xStart = -5` and
`yStart = -5` and ends at `xEnd = 35 > 30` and `yEnd = 15 > 10`. -/
theorem initGame_board_bounds_counterexample :
    (initGame 30 10).Board.xStart = -5 ∧ (initGame 30 10).Board.xEnd = 35 ∧
      (initGame 30 10).Board.yStart = -5 ∧ (initGame 30 10).Board.yEnd = 15 ∧
      ¬ ((initGame 30 10).Board.xStart < (initGame 30 10).Board.xEnd ∧
          (initGame 30 10).Board.yStart < (initGame 30 10).Board.yEnd ∧
          0 ≤ (initGame 30 10).Board.xStart ∧ (initGame 30 10).Board.xEnd ≤ 30 ∧
          0 ≤ (initGame 30 10).Board.yStart ∧ (initGame 30 10).Board.yEnd ≤ 10) := by
  decide

/-- C11, amended: for every terminal size the board of `initGame` has `xStart < xEnd` and
`yStart < yEnd`; it has `0 <= xStart` and `xEnd <= width` exactly when `width >= 40`, and
`0 <= yStart` and `yEnd <= height` exactly when `height >= 20`. -/
theorem initGame_board_bounds (width height : Int) :
    (initGame width height).Board.xStart < (initGame width height).Board.xEnd ∧
      (initGame width height).Board.yStart < (initGame width height).Board.yEnd ∧
      ((0 ≤ (initGame width height).Board.xStart ∧
          (initGame width height).Board.xEnd ≤ width) ↔ 40 ≤ width) ∧
      ((0 ≤ (initGame width height).Board.yStart ∧
          (initGame width height).Board.yEnd ≤ height) ↔ 20 ≤ height) := by
  obtain ⟨hxs, hxe, hys, hye⟩ := initGame_board width height
  rw [hxs, hxe, hys, hye]
  have hw := tdiv_two_bounds width
  have hh := tdiv_two_bounds height
  refine ⟨by omega, by omega, ?_, ?_⟩
  · rcases Int.lt_or_le width 0 with h | h
    · have := hw.2 h
      omega
    · have := hw.1 h
      omega
  · rcases Int.lt_or_le height 0 with h | h
    · have := hh.2 h
      omega
    · have := hh.1 h
      omega

/-! ## The propagation loop, `getSnakePositions`, `createApple`, `addOneBlock` -/

/-- C14: the propagation loop of `makeSnakeMove` leaves `(state, isOver)` at
`(SnakeFinish, true)` when the head's new position is the pre-move position of some
non-head segment, and leaves the pair untouched otherwise; in particular it flags the
step onto the cell of the last segment, which that segment leaves in the same move. -/
theorem propagate_flags_collision (game : Game) (d : Move) :
    (propagate (moveHead game.Snake.position d) game.Snake.next game.Snake.position
        (game.state, game.isOver)).2 =
      (if moveHead game.Snake.position d ∈ game.Snake.next then (GameState.SnakeFinish, true)
        else (game.state, game.isOver)) ∧
    ∀ front : List Point, game.Snake.next = front ++ [moveHead game.Snake.position d] →
      (propagate (moveHead game.Snake.position d) game.Snake.next game.Snake.position
        (game.state, game.isOver)).2 = (GameState.SnakeFinish, true) := by
  have h := propagate_snd (moveHead game.Snake.position d) game.Snake.next
    game.Snake.position (game.state, game.isOver)
  refine ⟨h, ?_⟩
  intro front hfront
  rw [h, if_pos]
  rw [hfront]
  simp

/-- C14, witness: the curled snake `[(5,3),(5,4),(4,4),(4,3)]` stepping Left onto `(4,3)`,
the cell of its last segment, is flagged by the loop. -/
theorem propagate_flags_collision_witness :
    exCurledGame.Snake.next = [⟨5, 4⟩, ⟨4, 4⟩] ++ [moveHead exCurledGame.Snake.position Move.Left] ∧
      (exCurledGame.state, exCurledGame.isOver) = (GameState.Pending, false) ∧
      (propagate (moveHead exCurledGame.Snake.position Move.Left) exCurledGame.Snake.next
        exCurledGame.Snake.position (exCurledGame.state, exCurledGame.isOver)).2 =
          (GameState.SnakeFinish, true) :=
  ⟨by decide, rfl,
    (propagate_flags_collision exCurledGame Move.Left).2 [⟨5, 4⟩, ⟨4, 4⟩] (by decide)⟩

/-- C15, the code at the failing input: for the snake `[(40,12),(41,12),(42,12)]` of the
initial game on an 80x24 terminal `getSnakePositions` holds `(40,12)` and `(41,12)` only;
the position `(42,12)` of the last segment is missing. -/
theorem getSnakePositions_misses_last :
    (initGame 80 24).Snake.positions = [⟨40, 12⟩, ⟨41, 12⟩, ⟨42, 12⟩] ∧
      getSnakePositions (initGame 80 24) = [⟨40, 12⟩, ⟨41, 12⟩] ∧
      (⟨42, 12⟩ : Point) ∈ (initGame 80 24).Snake.positions ∧
      (⟨42, 12⟩ : Point) ∉ getSnakePositions (initGame 80 24) := by
  decide

/-- C17: `createApple` returns iff some cell of the playable rectangle is neither a wall
cell nor in `getSnakePositions`; the apple it returns with is such a cell and nothing else
of the game changes; with no such cell the candidate slice is empty and the call fails. -/
theorem createApple_returns_iff (game : Game) (rnd : Nat) :
    ((∃ game1, createApple game rnd = some game1) ↔
      ∃ p : Point, (game.Board.xStart ≤ p.x ∧ p.x < game.Board.xEnd) ∧
        (game.Board.yStart ≤ p.y ∧ p.y < game.Board.yEnd) ∧
        isWall game p.x p.y = false ∧ p ∉ getSnakePositions game) ∧
    (∀ game1, createApple game rnd = some game1 →
      ((game.Board.xStart ≤ game1.Apple.x ∧ game1.Apple.x < game.Board.xEnd) ∧
        (game.Board.yStart ≤ game1.Apple.y ∧ game1.Apple.y < game.Board.yEnd) ∧
        isWall game game1.Apple.x game1.Apple.y = false ∧
        game1.Apple ∉ getSnakePositions game) ∧
      game1 = { game with Apple := game1.Apple }) ∧
    ((¬ ∃ p : Point, (game.Board.xStart ≤ p.x ∧ p.x < game.Board.xEnd) ∧
        (game.Board.yStart ≤ p.y ∧ p.y < game.Board.yEnd) ∧
        isWall game p.x p.y = false ∧ p ∉ getSnakePositions game) →
      availablePositions game = [] ∧ createApple game rnd = none) := by
  have hsome : ∀ game1, createApple game rnd = some game1 →
      ((game.Board.xStart ≤ game1.Apple.x ∧ game1.Apple.x < game.Board.xEnd) ∧
        (game.Board.yStart ≤ game1.Apple.y ∧ game1.Apple.y < game.Board.yEnd) ∧
        isWall game game1.Apple.x game1.Apple.y = false ∧
        game1.Apple ∉ getSnakePositions game) ∧
      game1 = { game with Apple := game1.Apple } := by
    intro game1 h
    obtain ⟨hmem, heq⟩ := createApple_eq_some game game1 rnd h
    exact ⟨(mem_availablePositions game game1.Apple).mp hmem, heq⟩
  refine ⟨⟨?_, ?_⟩, hsome, ?_⟩
  · rintro ⟨game1, h⟩
    exact ⟨game1.Apple, (hsome game1 h).1⟩
  · rintro ⟨p, hp⟩
    exact Option.isSome_iff_exists.mp
      (createApple_isSome game rnd p ((mem_availablePositions game p).mpr hp))
  · intro hno
    have hnil : availablePositions game = [] := by
      apply List.eq_nil_iff_forall_not_mem.mpr
      intro p hp
      exact hno ⟨p, (mem_availablePositions game p).mp hp⟩
    refine ⟨hnil, ?_⟩
    unfold createApple
    simp [hnil]

/-- C17, witness: on a board whose only non-wall cell `(1,1)` is under the head of a
2-segment snake there is no candidate and `createApple` fails; on the 10 x 6 board it
returns. -/
theorem createApple_returns_iff_witness :
    (availablePositions exFullGame = [] ∧ createApple exFullGame 0 = none) ∧
      ∃ game1, createApple exGame 0 = some game1 :=
  ⟨(createApple_returns_iff exFullGame 0).2.2 (by
      rintro ⟨⟨px, py⟩, ⟨hx1, hx2⟩, ⟨hy1, hy2⟩, hw, hs⟩
      have hx : px = 0 ∨ px = 1 ∨ px = 2 := by
        change (0 : Int) ≤ px at hx1
        change px < (3 : Int) at hx2
        omega
      have hy : py = 0 ∨ py = 1 ∨ py = 2 := by
        change (0 : Int) ≤ py at hy1
        change py < (3 : Int) at hy2
        omega
      rcases hx with rfl | rfl | rfl <;> rcases hy with rfl | rfl | rfl <;>
        first
          | exact absurd hw (by decide)
          | exact absurd hs (by decide)),
    (createApple_returns_iff exGame 0).1.2 ⟨⟨1, 1⟩, by decide⟩⟩

/-- C18: `addOneBlock` keeps every segment, in order, and appends exactly one segment at
`(-1,-1)` after the last one. -/
theorem addOneBlock_appends (snake : Block) :
    (addOneBlock snake).positions = snake.positions ++ [⟨-1, -1⟩] ∧
      (addOneBlock snake).positions.length = snake.positions.length + 1 := by
  have h : (addOneBlock snake).positions = snake.positions ++ [⟨-1, -1⟩] := by
    simp [Block.positions, addOneBlock, addOneBlockLoop_eq]
  refine ⟨h, ?_⟩
  rw [h]
  simp

/-! ## One tick of the main loop -/

/-- What a tick that returns is made of: the game handed to `makeSnakeMove` is the game of
the state or that game with the quit flags set, and the direction used, which is the
direction of the resulting state, is the old one or a command that is a direction. -/
theorem tick_cases (s s1 : Game × Move) (command : Option Move) (rnd : Nat)
    (h : tick s command rnd = some s1) :
    ∃ g1 : Game,
      (g1 = s.1 ∨ g1 = { s.1 with isOver := true, state := GameState.QuitByUser }) ∧
      (s1.2 = s.2 ∨ s1.2.isDirection = true) ∧
      makeSnakeMove g1 s1.2 rnd = some s1.1 := by
  unfold tick at h
  simp only [Option.bind_eq_some, Option.map_eq_some'] at h
  obtain ⟨⟨g1, d1⟩, hsel, g2, hmove, rfl⟩ := h
  refine ⟨g1, ?_, ?_, hmove⟩
  · cases command with
    | none =>
      simp only [Option.some.injEq] at hsel
      subst hsel
      exact Or.inl rfl
    | some cmd =>
      simp only at hsel
      split at hsel
      · simp only [Option.some.injEq, Prod.mk.injEq] at hsel
        exact Or.inr hsel.1.symm
      · split at hsel
        · simp only [Option.map_eq_some'] at hsel
          obtain ⟨ok, _, hok⟩ := hsel
          cases ok
          · simp only [Bool.false_eq_true, if_false] at hok
            subst hok
            exact Or.inl rfl
          · simp only [if_true, Prod.mk.injEq] at hok
            exact Or.inl hok.1.symm
        · simp only [Option.some.injEq] at hsel
          subst hsel
          exact Or.inl rfl
  · cases command with
    | none =>
      simp only [Option.some.injEq] at hsel
      subst hsel
      exact Or.inl rfl
    | some cmd =>
      simp only at hsel
      split at hsel
      · simp only [Option.some.injEq, Prod.mk.injEq] at hsel
        exact Or.inl hsel.2.symm
      · split at hsel
        · simp only [Option.map_eq_some'] at hsel
          obtain ⟨ok, _, hok⟩ := hsel
          cases ok
          · simp only [Bool.false_eq_true, if_false] at hok
            subst hok
            exact Or.inl rfl
          · simp only [if_true, Prod.mk.injEq] at hok
            right
            rw [← hok.2]
            cases cmd <;> simp_all [Move.isDirection]
        · simp only [Option.some.injEq] at hsel
          subst hsel
          exact Or.inl rfl

/-- The flags a tick returns with: one of the three final pairs, or the flags it started
from. -/
theorem tick_flags (s s1 : Game × Move) (command : Option Move) (rnd : Nat)
    (h : tick s command rnd = some s1) :
    (s1.1.state, s1.1.isOver) = (GameState.BorderFinish, true) ∨
      (s1.1.state, s1.1.isOver) = (GameState.SnakeFinish, true) ∨
      (s1.1.state, s1.1.isOver) = (GameState.QuitByUser, true) ∨
      (s1.1.state, s1.1.isOver) = (s.1.state, s.1.isOver) := by
  obtain ⟨g1, hg1, _, hmove⟩ := tick_cases s s1 command rnd h
  have hf := makeSnakeMove_flags g1 s1.1 s1.2 rnd hmove
  rw [hf]
  split
  · exact Or.inl rfl
  · split
    · exact Or.inr (Or.inl rfl)
    · rcases hg1 with rfl | rfl
      · exact Or.inr (Or.inr (Or.inr rfl))
      · exact Or.inr (Or.inr (Or.inl rfl))

theorem tick_flags_agree (s s1 : Game × Move) (command : Option Move) (rnd : Nat)
    (hs : s.1.isOver = true ↔ s.1.state ≠ GameState.Pending)
    (h : tick s command rnd = some s1) :
    s1.1.isOver = true ↔ s1.1.state ≠ GameState.Pending := by
  rcases tick_flags s s1 command rnd h with hf | hf | hf | hf <;>
    rw [Prod.mk.injEq] at hf
  · simp [hf.1, hf.2]
  · simp [hf.1, hf.2]
  · simp [hf.1, hf.2]
  · rw [hf.1, hf.2]
    exact hs

theorem tick_not_pending (s s1 : Game × Move) (command : Option Move) (rnd : Nat)
    (hs : s.1.state ≠ GameState.Pending) (h : tick s command rnd = some s1) :
    s1.1.state ≠ GameState.Pending := by
  rcases tick_flags s s1 command rnd h with hf | hf | hf | hf <;>
    rw [Prod.mk.injEq] at hf
  · simp [hf.1]
  · simp [hf.1]
  · simp [hf.1]
  · rw [hf.1]
    exact hs

theorem runTicks_flags_agree (script : List (Option Move × Nat)) (s s1 : Game × Move)
    (hs : s.1.isOver = true ↔ s.1.state ≠ GameState.Pending)
    (h : runTicks s script = some s1) :
    s1.1.isOver = true ↔ s1.1.state ≠ GameState.Pending := by
  induction script generalizing s with
  | nil =>
    simp only [runTicks, Option.some.injEq] at h
    exact h ▸ hs
  | cons c rest ih =>
    obtain ⟨command, rnd⟩ := c
    simp only [runTicks] at h
    split at h
    · simp only [Option.some.injEq] at h
      exact h ▸ hs
    · simp only [Option.bind_eq_some] at h
      obtain ⟨s2, hs2, hrest⟩ := h
      exact ih s2 (tick_flags_agree s s2 command rnd hs hs2) hrest

theorem runTicks_of_isOver (s : Game × Move) (script : List (Option Move × Nat))
    (h : s.1.isOver = true) : runTicks s script = some s := by
  cases script with
  | nil => rfl
  | cons c rest =>
    obtain ⟨command, rnd⟩ := c
    simp [runTicks, h]

/-- C13: starting from `state = Pending` and `isOver = false`, after any run of main-loop
ticks `isOver` is true iff the state is not Pending; once the state is not Pending the
loop runs no further tick, and a tick taken from such a state would not return to
Pending. -/
theorem runTicks_isOver_iff_not_pending (s s1 : Game × Move)
    (script : List (Option Move × Nat))
    (hstate : s.1.state = GameState.Pending) (hover : s.1.isOver = false)
    (h : runTicks s script = some s1) :
    (s1.1.isOver = true ↔ s1.1.state ≠ GameState.Pending) ∧
    (s1.1.state ≠ GameState.Pending →
      ∀ more : List (Option Move × Nat), runTicks s1 more = some s1) ∧
    (s1.1.state ≠ GameState.Pending →
      ∀ (command : Option Move) (rnd : Nat) (s2 : Game × Move),
        tick s1 command rnd = some s2 → s2.1.state ≠ GameState.Pending) := by
  have hagree : s1.1.isOver = true ↔ s1.1.state ≠ GameState.Pending :=
    runTicks_flags_agree script s s1 (by simp [hstate, hover]) h
  refine ⟨hagree, ?_, ?_⟩
  · intro hne more
    exact runTicks_of_isOver s1 more (hagree.mpr hne)
  · intro hne command rnd s2 h2
    exact tick_not_pending s1 s2 command rnd hne h2

set_option maxRecDepth 100000 in
/-- C13, witness: from the Pending state next to the left wall, the tick without a
command ends in `BorderFinish` with `isOver` set, and the two further scripted ticks are
not run. -/
theorem runTicks_isOver_iff_not_pending_witness :
    runTicks exNearWall [(none, 0), (some Move.Up, 0), (none, 0)] = some exAtWall ∧
      exAtWall.1.state = GameState.BorderFinish ∧
      (exAtWall.1.isOver = true ↔ exAtWall.1.state ≠ GameState.Pending) ∧
      (∀ more : List (Option Move × Nat), runTicks exAtWall more = some exAtWall) :=
  have h := runTicks_isOver_iff_not_pending exNearWall exAtWall
    [(none, 0), (some Move.Up, 0), (none, 0)] rfl rfl (by decide)
  ⟨by decide, rfl, h.1, h.2.1 (by decide)⟩

/-! ## The body along the main loop -/

/-- The body `makeSnakeMove` returns with: the displaced head, then the old body without
its last segment, then the block at `(-1,-1)` exactly when the apple was eaten. -/
theorem makeSnakeMove_body (game game1 : Game) (d : Move) (rnd : Nat)
    (h : makeSnakeMove game d rnd = some game1) :
    game1.Snake.position = moveHead game.Snake.position d ∧
      ((moveHead game.Snake.position d ≠ game.Apple ∧
          game1.Snake.next = game.Snake.positions.dropLast) ∨
        (moveHead game.Snake.position d = game.Apple ∧
          game1.Snake.next = game.Snake.positions.dropLast ++ [⟨-1, -1⟩])) := by
  rcases makeSnakeMove_cases game game1 d rnd h with ⟨ha, rfl⟩ | ⟨ha, a, _, rfl⟩
  · rw [(wallCheck_frame _).1]
    exact ⟨rfl, Or.inl ⟨ha, rfl⟩⟩
  · rw [(wallCheck_frame _).1]
    exact ⟨rfl, Or.inr ⟨ha, by simp [grown, addOneBlock_eq, afterLoop]⟩⟩

theorem makeSnakeMove_length (game game1 : Game) (d : Move) (rnd : Nat)
    (h : makeSnakeMove game d rnd = some game1) :
    game.Snake.positions.length ≤ game1.Snake.positions.length := by
  obtain ⟨_, hn⟩ := makeSnakeMove_snake game game1 d rnd h
  rcases hn with hn | hn <;> simp [Block.positions, hn]

theorem tick_snake (s s1 : Game × Move) (command : Option Move) (rnd : Nat)
    (h : tick s command rnd = some s1) :
    ∃ g1 : Game, g1.Snake = s.1.Snake ∧ g1.Board = s.1.Board ∧ g1.Apple = s.1.Apple ∧
      (s1.2 = s.2 ∨ s1.2.isDirection = true) ∧
      ((g1.state, g1.isOver) = (s.1.state, s.1.isOver) ∨
        (g1.state, g1.isOver) = (GameState.QuitByUser, true)) ∧
      makeSnakeMove g1 s1.2 rnd = some s1.1 := by
  obtain ⟨g1, hg1, hd, hmove⟩ := tick_cases s s1 command rnd h
  rcases hg1 with rfl | rfl
  · exact ⟨s.1, rfl, rfl, rfl, hd, Or.inl rfl, hmove⟩
  · exact ⟨{ s.1 with isOver := true, state := GameState.QuitByUser }, rfl, rfl, rfl, hd,
      Or.inr rfl, hmove⟩

theorem tick_length (s s1 : Game × Move) (command : Option Move) (rnd : Nat)
    (h : tick s command rnd = some s1) :
    s.1.Snake.positions.length ≤ s1.1.Snake.positions.length := by
  obtain ⟨g1, hsnake, _, _, _, _, hmove⟩ := tick_snake s s1 command rnd h
  rw [← hsnake]
  exact makeSnakeMove_length g1 s1.1 s1.2 rnd hmove

theorem reachable_length (s : Game × Move) (hs : Reachable s) :
    3 ≤ s.1.Snake.positions.length := by
  induction hs with
  | init width height rnd s h =>
    unfold start at h
    simp only [Option.map_eq_some'] at h
    obtain ⟨g, hg, rfl⟩ := h
    simp only
    rw [createApple_snake _ _ _ hg]
    simp [initGame, Block.positions]
  | step s command rnd s1 _ _ h ih =>
    exact Nat.le_trans ih (tick_length s s1 command rnd h)

/-- C19: every state the main loop reaches has a body of at least 3 segments, so
`commandIsValid` returns for every move there; `makeSnakeMove` never returns a shorter
body and `addOneBlock` lengthens it by one. -/
theorem reachable_three_segments (s : Game × Move) (hs : Reachable s) :
    3 ≤ s.1.Snake.positions.length ∧
    (∀ move : Move, ∃ ok : Bool, commandIsValid s.1 move = some ok) ∧
    (∀ (game game1 : Game) (d : Move) (rnd : Nat), makeSnakeMove game d rnd = some game1 →
      game.Snake.positions.length ≤ game1.Snake.positions.length) ∧
    (∀ snake : Block, (addOneBlock snake).positions.length = snake.positions.length + 1) := by
  have hlen := reachable_length s hs
  refine ⟨hlen, ?_, makeSnakeMove_length, ?_⟩
  · intro move
    have hne : s.1.Snake.next ≠ [] := by
      intro hnil
      simp [Block.positions, hnil] at hlen
    obtain ⟨n, rest, hnr⟩ := List.exists_cons_of_ne_nil hne
    cases move <;> simp only [commandIsValid, hnr, List.head?_cons, Option.map_some'] <;>
      exact ⟨_, rfl⟩
  · intro snake
    simp [Block.positions, addOneBlock_eq]

set_option maxRecDepth 100000 in
/-- C19, witness: the state reached on an 80x24 terminal by the commands Up and Right has
3 segments, and `commandIsValid` returns there for each of the six moves. -/
theorem reachable_three_segments_witness :
    exHeadingRight.1.Snake.positions.length = 3 ∧
      3 ≤ exHeadingRight.1.Snake.positions.length ∧
      ∀ move : Move, ∃ ok : Bool, commandIsValid exHeadingRight.1 move = some ok :=
  have h := reachable_three_segments exHeadingRight
    (reachable_of_run 80 24 0 [(some Move.Up, 0), (some Move.Right, 0)] exHeadingRight
      (by decide))
  ⟨rfl, h.1, h.2.1⟩

/-! ## The body invariant of the main loop -/

theorem isWall_eq_false (game : Game) (x y : Int) :
    isWall game x y = false ↔
      y ≠ game.Board.yStart ∧ x ≠ game.Board.xStart ∧
        y ≠ game.Board.yEnd - 1 ∧ x ≠ game.Board.xEnd - 1 := by
  simp only [isWall, Bool.or_eq_false_iff, beq_eq_false_iff_ne, ne_eq]
  tauto

theorem strictlyInside_of_not_wall (game : Game) (p : Point) (hin : inBoard game.Board p)
    (hw : isWall game p.x p.y = false) : strictlyInside game.Board p := by
  rw [isWall_eq_false] at hw
  unfold inBoard at hin
  unfold strictlyInside
  omega

theorem inBoard_moveHead (b : Board) (p : Point) (d : Move) (h : strictlyInside b p) :
    inBoard b (moveHead p d) := by
  unfold strictlyInside at h
  unfold inBoard
  cases d <;> simp only [moveHead] <;> omega

theorem moveHead_ne (p : Point) (d : Move) (hd : d.isDirection = true) : moveHead p d ≠ p := by
  obtain ⟨x, y⟩ := p
  cases d <;> simp [Move.isDirection, moveHead] at hd ⊢

theorem moved_inBoard (s : Game × Move) (d : Move) (hs : bodyInv s)
    (hrun : s.1.isOver = false) :
    ∀ p ∈ moveHead s.1.Snake.position d :: s.1.Snake.positions.dropLast,
      inBoard s.1.Board p := by
  intro p hp
  rcases List.mem_cons.mp hp with rfl | hp
  · exact inBoard_moveHead _ _ _ (hs.2.2.1 hrun)
  · exact hs.2.1 p hp

theorem bodyInv_start (width height : Int) (rnd : Nat) (s : Game × Move)
    (h : start width height rnd = some s) : bodyInv s := by
  unfold start at h
  simp only [Option.map_eq_some'] at h
  obtain ⟨g, hg, rfl⟩ := h
  have hg2 := (createApple_eq_some _ _ _ hg).2
  have hB : g.Board = (initGame width height).Board := by rw [hg2]
  have hS : g.Snake = (initGame width height).Snake := by rw [hg2]
  obtain ⟨hxs, hxe, hys, hye⟩ := initGame_board width height
  have hpos : g.Snake.positions =
      [⟨Int.tdiv width 2, Int.tdiv height 2⟩, ⟨Int.tdiv width 2 + 1, Int.tdiv height 2⟩,
        ⟨Int.tdiv width 2 + 2, Int.tdiv height 2⟩] := by
    rw [hS]
    rfl
  refine ⟨?_, ?_, ?_, ?_⟩
  · show g.Board = (initGame g.Board.width g.Board.height).Board
    rw [hB]
    rfl
  · show ∀ p ∈ g.Snake.positions.dropLast, inBoard g.Board p
    rw [hpos, hB]
    intro p hp
    simp only [List.dropLast, List.mem_cons, List.mem_singleton, List.not_mem_nil,
      or_false] at hp
    unfold inBoard
    rw [hxs, hxe, hys, hye]
    rcases hp with rfl | rfl <;> simp only <;> omega
  · intro _
    show strictlyInside g.Board g.Snake.position
    rw [hS, hB]
    unfold strictlyInside
    rw [hxs, hxe, hys, hye]
    simp only [initGame]
    omega
  · intro _ _
    show g.Snake.positions.Nodup
    rw [hpos]
    simp only [List.nodup_cons, List.mem_cons, List.mem_singleton, Point.mk.injEq,
      List.not_mem_nil, List.nodup_nil, not_false_eq_true, and_true, or_false]
    omega

theorem isWall_of_board (game game1 : Game) (hb : game1.Board = game.Board) (x y : Int) :
    isWall game1 x y = isWall game x y := by
  simp only [isWall, hb]

theorem bodyInv_tick (s s1 : Game × Move) (command : Option Move) (rnd : Nat)
    (hs : bodyInv s) (hd : s.2.isDirection = true) (hrun : s.1.isOver = false)
    (h : tick s command rnd = some s1) : bodyInv s1 := by
  obtain ⟨g1, hsnake, hboard, happle, hdir, hflags, hmove⟩ := tick_snake s s1 command rnd h
  have hd1 : s1.2.isDirection = true := by
    rcases hdir with e | e
    · rw [e]
      exact hd
    · exact e
  obtain ⟨hpos, hnext⟩ := makeSnakeMove_body g1 s1.1 s1.2 rnd hmove
  have hB : s1.1.Board = s.1.Board := by
    rw [makeSnakeMove_board g1 s1.1 s1.2 rnd hmove, hboard]
  have hf := makeSnakeMove_flags g1 s1.1 s1.2 rnd hmove
  rw [hsnake] at hpos hnext hf
  rw [isWall_of_board s.1 g1 hboard] at hf
  have hall := moved_inBoard s s1.2 hs hrun
  have hne := moveHead_ne s.1.Snake.position s1.2 hd1
  obtain ⟨hbeq, _, _, hnodup⟩ := hs
  have hposs : s1.1.Snake.positions =
        moveHead s.1.Snake.position s1.2 :: s.1.Snake.positions.dropLast ∨
      s1.1.Snake.positions =
        (moveHead s.1.Snake.position s1.2 :: s.1.Snake.positions.dropLast) ++ [⟨-1, -1⟩] := by
    rcases hnext with ⟨_, hn⟩ | ⟨_, hn⟩
    · left
      rw [Block.positions, hpos, hn]
    · right
      rw [Block.positions, hpos, hn, List.cons_append]
  refine ⟨?_, ?_, ?_, ?_⟩
  · rw [hB]
    exact hbeq
  · rw [hB]
    intro p hp
    rcases hposs with e | e
    · rw [e] at hp
      exact hall p (List.mem_of_mem_dropLast hp)
    · rw [e, List.dropLast_concat] at hp
      exact hall p hp
  · intro hover
    rw [hB, hpos]
    by_cases hw : isWall s.1 (moveHead s.1.Snake.position s1.2).x
        (moveHead s.1.Snake.position s1.2).y = true
    · rw [if_pos hw, Prod.mk.injEq] at hf
      rw [hf.2] at hover
      exact absurd hover (by decide)
    · exact strictlyInside_of_not_wall s.1 _ (hall _ (List.mem_cons_self _ _))
        (by simpa using hw)
  · intro hx hpend
    rw [hB] at hx
    by_cases hw : isWall s.1 (moveHead s.1.Snake.position s1.2).x
        (moveHead s.1.Snake.position s1.2).y = true
    · rw [if_pos hw, Prod.mk.injEq] at hf
      rw [hf.1] at hpend
      exact absurd hpend (by decide)
    · rw [if_neg hw] at hf
      by_cases hm : moveHead s.1.Snake.position s1.2 ∈ s.1.Snake.next
      · rw [if_pos hm, Prod.mk.injEq] at hf
        rw [hf.1] at hpend
        exact absurd hpend (by decide)
      · rw [if_neg hm, Prod.mk.injEq] at hf
        have hspend : s.1.state = GameState.Pending := by
          rcases hflags with e | e <;> rw [Prod.mk.injEq] at e
          · rw [← e.1, ← hf.1]
            exact hpend
          · rw [hf.1, e.1] at hpend
            exact absurd hpend (by decide)
        have hP := hnodup hx hspend
        have hnotin : moveHead s.1.Snake.position s1.2 ∉ s.1.Snake.positions := by
          intro hin
          rcases List.mem_cons.mp hin with e | e
          · exact hne e
          · exact hm e
        have hmoved :
            (moveHead s.1.Snake.position s1.2 :: s.1.Snake.positions.dropLast).Nodup :=
          List.nodup_cons.mpr
            ⟨fun hin => hnotin (List.mem_of_mem_dropLast hin),
              List.Nodup.sublist (List.dropLast_sublist _) hP⟩
        rcases hposs with e | e
        · rw [e]
          exact hmoved
        · rw [e]
          refine List.nodup_append.mpr ⟨hmoved, List.nodup_singleton _, ?_⟩
          intro p hp1 hp2
          have hin := hall p hp1
          rw [List.mem_singleton] at hp2
          rw [hp2] at hin
          unfold inBoard at hin
          have : (0 : Int) ≤ -1 := Int.le_trans hx hin.1.1
          exact absurd this (by decide)

theorem bodyInv_of_reachable (s : Game × Move) (hs : Reachable s) : bodyInv s := by
  induction hs with
  | init width height rnd s h => exact bodyInv_start width height rnd s h
  | step s command rnd s1 hs hrun h ih =>
    exact bodyInv_tick s s1 command rnd ih (neckBehind_of_reachable s hs).1 hrun h

theorem xStart_nonneg_of_width (s : Game × Move) (hs : bodyInv s)
    (hw : 40 ≤ s.1.Board.width) : 0 ≤ s.1.Board.xStart := by
  rw [hs.1, (initGame_board _ _).1]
  have := (tdiv_two_bounds s.1.Board.width).1 (by omega)
  omega

/-- C12: in every state the main loop reaches on a terminal at least 40 cells wide, a
Pending state has no two body segments on the same position. The height of the terminal
plays no part. -/
theorem reachable_pending_nodup (s : Game × Move) (hs : Reachable s)
    (hw : 40 ≤ s.1.Board.width) (hstate : s.1.state = GameState.Pending) :
    s.1.Snake.positions.Nodup :=
  (bodyInv_of_reachable s hs).2.2.2
    (xStart_nonneg_of_width s (bodyInv_of_reachable s hs) hw) hstate

set_option maxRecDepth 100000 in
/-- C12, witness: the Pending state reached on an 80x24 terminal by eating the first
apple has the body `[(39,12),(40,12),(41,12),(-1,-1)]`, four distinct positions. -/
theorem reachable_pending_nodup_witness :
    exAfterEating.1.state = GameState.Pending ∧
      exAfterEating.1.Snake.positions = [⟨39, 12⟩, ⟨40, 12⟩, ⟨41, 12⟩, ⟨-1, -1⟩] ∧
      exAfterEating.1.Snake.positions.Nodup :=
  ⟨rfl, rfl,
    reachable_pending_nodup exAfterEating
      (reachable_of_run 80 24 360 [(none, 0)] exAfterEating (by decide)) (by decide) rfl⟩

/-- C4, counterexample: on the board `[0,4) x [0,4)` a tick Up eats the apple at `(1,1)`
and leaves the Pending state with snake `[(1,1),(1,2),(2,2),(-1,-1)]` and the apple on the
one free cell `(2,1)`. The move Right puts the head on that apple; the body then covers
all four non-wall cells, `createApple` has no candidate and `makeSnakeMove` fails. -/
theorem makeSnakeMove_eats_last_free_cell_counterexample :
    makeSnakeMove exAlmostFullBefore Move.Up 0 = some exAlmostFull ∧
      exAlmostFull.state = GameState.Pending ∧
      0 ≤ exAlmostFull.Board.xStart ∧ 0 ≤ exAlmostFull.Board.yStart ∧
      ((exAlmostFull.Board.xStart ≤ 2 ∧ 2 < exAlmostFull.Board.xEnd) ∧
        (exAlmostFull.Board.yStart ≤ 1 ∧ 1 < exAlmostFull.Board.yEnd) ∧
        isWall exAlmostFull 2 1 = false ∧
        (⟨2, 1⟩ : Point) ∉ exAlmostFull.Snake.positions) ∧
      moveHead exAlmostFull.Snake.position Move.Right = exAlmostFull.Apple ∧
      availablePositions (grown exAlmostFull Move.Right) = [] ∧
      makeSnakeMove exAlmostFull Move.Right 0 = none := by
  decide

end GoGoGadgetoSnake
